import Mathlib

/-!
Verification development for the CPI calculator
(`src/cpi_calculator/calculator.py`).

The embedding models the three input tables (`categories`, `products`,
`prices`) as lists of records, and the two CPI computations:

* `computeDailyCPI` models `CPICalculator.compute_daily_cpi`: fetch the
  price rows for the dates in `[start, end]`, pivot them to a
  product-by-date table, forward-fill along the date axis, take base
  prices from the `start` column, merge with products and leaf
  categories, and per date aggregate `exp(mean(log(current/base)))`
  per leaf category, weighted-summed and rounded to 4 decimals.
  A missing pivot column (a date with no fetched row) makes the pandas
  column lookup raise `KeyError`; this is modelled by the `Option`
  result (`none` = the call raises).

* `sqlValidRows` models the row set that survives the filters of the
  single-point SQL query in `CPICalculator.compute_cpi`.

Dates are day indices (`Nat`), prices and weights are rationals, and the
transcendental part (`log`/`exp`) is over `ℝ`.
-/

/-- A row of the `categories` table: `category_id`, `parent`
(`-1` is the root sentinel used by the SQL query), `weight`. -/
structure Category where
  category_id : Int
  parent : Int
  weight : ℚ
deriving DecidableEq, Repr

/-- A row of the `products` table: `product_id`, `category_id`. -/
structure Product where
  product_id : Int
  category_id : Int
deriving DecidableEq, Repr

/-- A row of the `prices` table: `product_id`, `price`, `date`. -/
structure PriceRow where
  product_id : Int
  price : ℚ
  date : Nat
deriving DecidableEq, Repr

/-- Leaf test of `compute_daily_cpi`:
`~categories['category_id'].isin(categories['parent'])` — category `c`
is a leaf iff no row of `categories` (including `c` itself) has `c`'s
id as its `parent` value. -/
def isLeafDaily (cats : List Category) (c : Category) : Bool :=
  !(cats.any (fun d => d.parent == c.category_id))

/-- `leaf_categories` of `compute_daily_cpi`: the category rows that
pass `isLeafDaily`. -/
def leafCategories (cats : List Category) : List Category :=
  cats.filter (isLeafDaily cats)

/-- Leaf test of the `compute_cpi` SQL:
`category_id NOT IN (SELECT parent FROM categories WHERE parent != -1)`. -/
def isLeafSQL (cats : List Category) (c : Category) : Bool :=
  !(cats.any (fun d => d.parent != -1 && d.parent == c.category_id))

/-- `leaf_categories` CTE of `compute_cpi`. -/
def leafCategoriesSQL (cats : List Category) : List Category :=
  cats.filter (isLeafSQL cats)

/-- `_load_prices_for_dates(all_dates)` with
`all_dates = pd.date_range(start, end)`: the price rows whose date lies
in `[s, e]`.  Rows dated before `s` (or after `e`) are never fetched. -/
def fetchRows (prices : List PriceRow) (s e : Nat) : List PriceRow :=
  prices.filter (fun r => decide (s ≤ r.date) && decide (r.date ≤ e))

/-- The raw pivot cell `pivot_table(index=product_id, columns=date,
values=price, aggfunc='first')` at `(p, d)`: the first fetched row for
product `p` on date `d`, if any. -/
def pivotRaw (rows : List PriceRow) (p : Int) (d : Nat) : Option ℚ :=
  ((rows.filter (fun r => r.product_id == p && r.date == d)).head?).map (·.price)

/-- Whether date `d` is a column of the pivot table, i.e. some fetched
row carries date `d`.  `price_pivot[d]` raises `KeyError` otherwise. -/
def hasColumn (rows : List PriceRow) (d : Nat) : Bool :=
  rows.any (fun r => r.date == d)

/-- The pivot cell at `(p, d)` after `.ffill(axis=1)`: the raw value at
the most recent date `≤ d` on which product `p` has a fetched row. -/
def ffillAt (rows : List PriceRow) (p : Int) (d : Nat) : Option ℚ :=
  ((List.range (d + 1)).reverse).findSome? (fun d2 => pivotRaw rows p d2)

/-- A row of `merged_data`: a product row joined with its base price
(`price_pivot[start_date]`, possibly NaN = `none`) and a matching leaf
category row. -/
structure MergedRow where
  product_id : Int
  base_price : Option ℚ
  category_id : Int
  weight : ℚ
deriving DecidableEq, Repr

/-- `merged_data = products.merge(base_prices, on product id).merge(
leaf_categories, on category_id)`: products that appear in the pivot
index (have at least one fetched row), joined with every leaf-category
row that matches their `category_id`. -/
def mergedData (cats : List Category) (prods : List Product)
    (rows : List PriceRow) (s : Nat) : List MergedRow :=
  (prods.filter (fun p => rows.any (fun r => r.product_id == p.product_id))).flatMap
    (fun p => (leafCategories cats).filterMap
      (fun l => if l.category_id == p.category_id then
          some ⟨p.product_id, ffillAt rows p.product_id s, l.category_id, l.weight⟩
        else none))

/-- A row of `valid_data`: a surviving product with its base and current
price (the ratio `current/base` is taken at the `log` step). -/
structure VRow where
  product_id : Int
  category_id : Int
  base : ℚ
  cur : ℚ
deriving DecidableEq, Repr

/-- `valid_data` at date `T`: merged rows joined with
`current_prices = price_pivot[T]` and filtered by
`base_price > 0 & current_price.notnull()`. -/
def validRatios (m : List MergedRow) (rows : List PriceRow) (T : Nat) :
    List VRow :=
  m.filterMap (fun r =>
    match r.base_price, ffillAt rows r.product_id T with
    | some b, some c => if 0 < b then some ⟨r.product_id, r.category_id, b, c⟩ else none
    | _, _ => none)

/-- The `valid_data` rows of category `c` (the groupby group). -/
def survivors (v : List VRow) (c : Int) : List VRow :=
  v.filter (fun x => x.category_id == c)

/-- `groupby('category_id')['log_ratio'].mean()` for category `c`:
the mean of `log(current/base)` over the group. -/
noncomputable def meanLogRatio (v : List VRow) (c : Int) : ℝ :=
  (((survivors v c).map (fun x => Real.log ((x.cur : ℝ) / (x.base : ℝ)))).sum) /
    ((survivors v c).length : ℝ)

/-- One day of the loop body of `compute_daily_cpi` before rounding:
group `valid_data` by category, take `exp` of the mean log ratio,
merge the distinct surviving category ids back with `leaf_categories`,
and sum `price_index * weight`. -/
noncomputable def dailyValue (cats : List Category) (m : List MergedRow)
    (rows : List PriceRow) (T : Nat) : ℝ :=
  (((validRatios m rows T).map (fun x => x.category_id)).dedup.flatMap
    (fun c => (leafCategories cats).filterMap
      (fun l => if l.category_id == c then
          some (Real.exp (meanLogRatio (validRatios m rows T) c) * (l.weight : ℝ))
        else none))).sum

/-- `.round(4)` applied to each value of the series. -/
noncomputable def round4 (x : ℝ) : ℝ :=
  ((round (x * 10000) : ℤ) : ℝ) / 10000

/-- `pd.date_range(start, end, freq='D')` as day indices. -/
def allDates (s e : Nat) : List Nat :=
  (List.range (e + 1 - s)).map (fun k => s + k)

/-- The per-date loop of `compute_daily_cpi`: evaluates `f` on each
date in order, aborting (`none`, a raised `KeyError`) as soon as one
date fails. -/
def buildSeries (f : Nat → Option ℝ) : List Nat → Option (List ℝ)
  | [] => some []
  | d :: ds =>
    match f d with
    | none => none
    | some v =>
      match buildSeries f ds with
      | none => none
      | some vs => some (v :: vs)

/-- `compute_daily_cpi` given the already-fetched price rows: look up
the base column (`KeyError` if date `s` has no fetched row), then build
the rounded daily series; each day first looks up `price_pivot[T]`
(`KeyError` if date `T` has no fetched row). -/
noncomputable def dailyFromRows (cats : List Category) (prods : List Product)
    (rows : List PriceRow) (s e : Nat) : Option (List ℝ) :=
  if hasColumn rows s then
    buildSeries
      (fun T => if hasColumn rows T then
          some (round4 (dailyValue cats (mergedData cats prods rows s) rows T))
        else none)
      (allDates s e)
  else none

/-- `CPICalculator.compute_daily_cpi(start, end)` on in-memory tables:
fetch the rows of `[s, e]` and run the daily pipeline.  `none` models a
raised exception. -/
noncomputable def computeDailyCPI (cats : List Category) (prods : List Product)
    (prices : List PriceRow) (s e : Nat) : Option (List ℝ) :=
  dailyFromRows cats prods (fetchRows prices s e) s e

/-- The spec-side reading of one day of `compute_daily_cpi` (before
rounding): the sum, over exactly those leaf-category rows having at
least one surviving product on `T`, of `exp(mean log ratio) * weight`;
a leaf category with no surviving product contributes `0` and no
renormalization takes place. -/
noncomputable def specDailyValue (cats : List Category) (m : List MergedRow)
    (rows : List PriceRow) (T : Nat) : ℝ :=
  ((leafCategories cats).map (fun l =>
    if survivors (validRatios m rows T) l.category_id = [] then 0
    else Real.exp (meanLogRatio (validRatios m rows T) l.category_id) * (l.weight : ℝ))).sum

/-- The claim-side notion of C1: the most recent observation of product
`p` in the full `prices` table on a date on or before `d`. -/
def mostRecentOnOrBefore (prices : List PriceRow) (p : Int) (d : Nat) : Option ℚ :=
  ffillAt prices p d

/-- The rows of the `prices` table dated exactly `s` or `e`
(`WHERE date IN (start, end)` of the `compute_cpi` SQL). -/
def endpointRows (prices : List PriceRow) (s e : Nat) : List PriceRow :=
  prices.filter (fun r => r.date == s || r.date == e)

/-- Modelled from the spec: the repository contains no table
definitions for ClickHouse, so the nullability of the aggregated
`MAXIf(price, toDate(date) = d)` is not in the source.  Following the
spec (an exact observation on both endpoint dates is required) and the
query's own `IS NOT NULL` filter, a group with no row on date `d`
yields NULL (`none`); otherwise the maximal price on `d`. -/
def maxIfPrice (rows : List PriceRow) (p : Int) (d : Nat) : Option ℚ :=
  ((rows.filter (fun r => r.product_id == p && r.date == d)).map (fun r => r.price)).max?

/-- The product ids grouped by the `price_data` CTE: the distinct
products having at least one row on one of the endpoint dates. -/
def priceDataProducts (prices : List PriceRow) (s e : Nat) : List Int :=
  ((endpointRows prices s e).map (fun r => r.product_id)).dedup

/-- The joined and filtered rows feeding `category_cpi` in the
`compute_cpi` SQL: `products JOIN price_data JOIN leaf_categories
WHERE base_price > 0 AND report_price IS NOT NULL`. -/
def sqlValidRows (cats : List Category) (prods : List Product)
    (prices : List PriceRow) (s e : Nat) : List VRow :=
  prods.flatMap (fun p =>
    if (priceDataProducts prices s e).contains p.product_id then
      (leafCategoriesSQL cats).filterMap (fun l =>
        if l.category_id == p.category_id then
          match maxIfPrice (endpointRows prices s e) p.product_id s,
                maxIfPrice (endpointRows prices s e) p.product_id e with
          | some b, some r => if 0 < b then some ⟨p.product_id, p.category_id, b, r⟩ else none
          | _, _ => none
        else none)
    else [])

/-- `compute_cpi`'s handling of the query result
(`result[0][0] if result else None`, `except: return None`): a raised
query error is swallowed and becomes `none`. -/
def compute_cpi_run {E A : Type} (qres : Except E (List A)) : Option A :=
  match qres with
  | Except.error _ => none
  | Except.ok [] => none
  | Except.ok (x :: _) => some x

/-- `compute_daily_cpi` with the result of `_load_prices_for_dates`
passed explicitly: there is no try/except, so a failed query
propagates unchanged. -/
noncomputable def compute_daily_cpi_run {E : Type} (cats : List Category)
    (prods : List Product) (s e : Nat) (qres : Except E (List PriceRow)) :
    Except E (Option (List ℝ)) :=
  match qres with
  | Except.error msg => Except.error msg
  | Except.ok rows => Except.ok (dailyFromRows cats prods rows s e)

/-! ### Basic facts about the pivot table and forward-fill -/

theorem ffillAt_zero (rows : List PriceRow) (p : Int) :
    ffillAt rows p 0 = pivotRaw rows p 0 := by
  simp only [ffillAt, List.range_succ, List.range_zero, List.nil_append,
    List.reverse_cons, List.reverse_nil, List.findSome?]
  cases pivotRaw rows p 0 <;> rfl

theorem ffillAt_succ_of_none {rows : List PriceRow} {p : Int} {d : Nat}
    (h : pivotRaw rows p (d + 1) = none) :
    ffillAt rows p (d + 1) = ffillAt rows p d := by
  simp only [ffillAt, List.range_succ, List.reverse_append, List.reverse_cons,
    List.reverse_nil, List.nil_append, List.cons_append, List.findSome?, h]

theorem ffillAt_of_pivotRaw {rows : List PriceRow} {p : Int} {d : Nat} {v : ℚ}
    (h : pivotRaw rows p d = some v) : ffillAt rows p d = some v := by
  cases d with
  | zero => rw [ffillAt_zero]; exact h
  | succ n =>
    simp only [ffillAt, List.range_succ, List.reverse_append, List.reverse_cons,
      List.reverse_nil, List.nil_append, List.cons_append, List.findSome?, h]

theorem pivotRaw_eq_none_of_no_row {rows : List PriceRow} {p : Int} {d : Nat}
    (h : ∀ r ∈ rows, r.product_id = p → r.date ≠ d) : pivotRaw rows p d = none := by
  have hf : rows.filter (fun r => r.product_id == p && r.date == d) = [] := by
    rw [List.filter_eq_nil_iff]
    intro r hr
    simp only [Bool.and_eq_true, beq_iff_eq, not_and]
    exact fun hp => h r hr hp
  simp [pivotRaw, hf]

theorem ffillAt_eq_none_of_late {rows : List PriceRow} {p : Int} {d : Nat}
    (h : ∀ r ∈ rows, d < r.date) : ffillAt rows p d = none := by
  induction d with
  | zero =>
    rw [ffillAt_zero]
    exact pivotRaw_eq_none_of_no_row (fun r hr _ hd => by have := h r hr; omega)
  | succ n ih =>
    rw [ffillAt_succ_of_none (pivotRaw_eq_none_of_no_row
      (fun r hr _ hd => by have := h r hr; omega))]
    exact ih (fun r hr => by have := h r hr; omega)

theorem ffillAt_at_start {rows : List PriceRow} {p : Int} {s : Nat}
    (h : ∀ r ∈ rows, s ≤ r.date) : ffillAt rows p s = pivotRaw rows p s := by
  cases s with
  | zero => exact ffillAt_zero rows p
  | succ n =>
    cases hp : pivotRaw rows p (n + 1) with
    | some v => rw [ffillAt_of_pivotRaw hp]
    | none =>
      rw [ffillAt_succ_of_none hp]
      exact ffillAt_eq_none_of_late (fun r hr => by have := h r hr; omega)

theorem mem_fetchRows {prices : List PriceRow} {s e : Nat} {r : PriceRow}
    (h : r ∈ fetchRows prices s e) : r ∈ prices ∧ s ≤ r.date ∧ r.date ≤ e := by
  have h1 := List.mem_filter.mp h
  have h2 := h1.2
  simp only [Bool.and_eq_true, decide_eq_true_eq] at h2
  exact ⟨h1.1, h2.1, h2.2⟩

theorem fetchRows_date_ge {prices : List PriceRow} {s e : Nat} :
    ∀ r ∈ fetchRows prices s e, s ≤ r.date :=
  fun r hr => (mem_fetchRows hr).2.1

theorem pivotRaw_fetchRows {prices : List PriceRow} {s e d : Nat} (p : Int)
    (hs : s ≤ d) (he : d ≤ e) :
    pivotRaw (fetchRows prices s e) p d = pivotRaw prices p d := by
  unfold pivotRaw fetchRows
  rw [List.filter_filter]
  have heq : prices.filter
      (fun a => a.product_id == p && a.date == d &&
        (decide (s ≤ a.date) && decide (a.date ≤ e))) =
      prices.filter (fun r => r.product_id == p && r.date == d) := by
    apply List.filter_congr
    intro r _
    by_cases hd : r.date = d
    · simp [hd, hs, he]
    · simp [hd]
  rw [heq]

/-! ### Membership facts about the merged and valid rows -/

theorem mem_mergedData {cats : List Category} {prods : List Product}
    {rows : List PriceRow} {s : Nat} {r : MergedRow}
    (h : r ∈ mergedData cats prods rows s) :
    r.base_price = ffillAt rows r.product_id s ∧
      (∃ p ∈ prods, p.product_id = r.product_id ∧ p.category_id = r.category_id) ∧
      ∃ l ∈ leafCategories cats, l.category_id = r.category_id ∧ l.weight = r.weight := by
  obtain ⟨p, hp, hr⟩ := List.mem_flatMap.mp h
  obtain ⟨l, hl, hlr⟩ := List.mem_filterMap.mp hr
  by_cases hc : l.category_id = p.category_id
  · rw [if_pos (beq_iff_eq.mpr hc)] at hlr
    have hre := Option.some_inj.mp hlr
    subst hre
    exact ⟨rfl, ⟨p, (List.mem_filter.mp hp).1, rfl, hc.symm⟩, ⟨l, hl, rfl, rfl⟩⟩
  · rw [if_neg (by simpa using hc)] at hlr
    exact Option.noConfusion hlr

theorem mem_validRatios {m : List MergedRow} {rows : List PriceRow} {T : Nat}
    {x : VRow} (h : x ∈ validRatios m rows T) :
    ∃ r ∈ m, r.product_id = x.product_id ∧ r.category_id = x.category_id ∧
      r.base_price = some x.base ∧ 0 < x.base ∧
      ffillAt rows x.product_id T = some x.cur := by
  obtain ⟨r, hr, hx⟩ := List.mem_filterMap.mp h
  refine ⟨r, hr, ?_⟩
  cases hb : r.base_price with
  | none => rw [hb] at hx; exact Option.noConfusion hx
  | some b =>
    cases hc : ffillAt rows r.product_id T with
    | none => rw [hb, hc] at hx; exact Option.noConfusion hx
    | some c =>
      rw [hb, hc] at hx
      have hx2 : (if 0 < b then
          some (⟨r.product_id, r.category_id, b, c⟩ : VRow) else none) = some x := hx
      by_cases hpos : 0 < b
      · rw [if_pos hpos] at hx2
        have hxe := Option.some_inj.mp hx2
        subst hxe
        exact ⟨rfl, rfl, rfl, hpos, hc⟩
      · rw [if_neg hpos] at hx2
        exact Option.noConfusion hx2

/-! ### List-sum helpers for the groupby/merge aggregation -/

theorem listSum_map_zero {A : Type} (l : List A) :
    (l.map (fun _ => (0 : ℝ))).sum = 0 := by
  induction l with
  | nil => rfl
  | cons a as ih => simp [ih]

theorem listSum_map_add {A : Type} (l : List A) (f g : A → ℝ) :
    (l.map (fun a => f a + g a)).sum = (l.map f).sum + (l.map g).sum := by
  induction l with
  | nil => simp
  | cons a as ih => simp only [List.map_cons, List.sum_cons, ih]; ring

theorem listSum_flatMap {A : Type} (l : List A) (g : A → List ℝ) :
    (l.flatMap g).sum = (l.map (fun a => (g a).sum)).sum := by
  induction l with
  | nil => rfl
  | cons a as ih => simp [List.flatMap_cons, List.sum_append, ih]

theorem listSum_filterMap_ite {A : Type} (L : List A) (p : A → Bool) (f : A → ℝ) :
    (L.filterMap (fun a => if p a then some (f a) else none)).sum =
      (L.map (fun a => if p a then f a else 0)).sum := by
  induction L with
  | nil => rfl
  | cons a as ih => cases hpa : p a <;> simp [hpa, ih]

theorem listSum_comm {A B : Type} (l1 : List A) (l2 : List B) (f : A → B → ℝ) :
    (l1.map (fun a => (l2.map (f a)).sum)).sum =
      (l2.map (fun b => (l1.map (fun a => f a b)).sum)).sum := by
  induction l1 with
  | nil => simp [listSum_map_zero]
  | cons a as ih => simp only [List.map_cons, List.sum_cons, ih, listSum_map_add]

theorem listSum_ite_of_nodup (l : List Int) (hl : l.Nodup) (x : Int) (h : Int → ℝ) :
    (l.map (fun c => if x == c then h c else 0)).sum = if x ∈ l then h x else 0 := by
  induction l with
  | nil => simp
  | cons a as ih =>
    have hnd := List.nodup_cons.mp hl
    by_cases hxa : x = a
    · subst hxa
      simp only [List.map_cons, List.sum_cons, beq_self_eq_true, if_true]
      rw [ih hnd.2, if_neg hnd.1, if_pos (List.mem_cons_self x as)]
      ring
    · simp only [List.map_cons, List.sum_cons]
      rw [if_neg (by simpa using hxa), ih hnd.2]
      by_cases hxs : x ∈ as
      · rw [if_pos hxs, if_pos (List.mem_cons.mpr (Or.inr hxs))]
        ring
      · rw [if_neg hxs, if_neg (by simp [hxa, hxs])]
        ring

theorem survivors_eq_nil_iff (v : List VRow) (c : Int) :
    survivors v c = [] ↔ ∀ x ∈ v, x.category_id ≠ c := by
  simp [survivors, List.filter_eq_nil_iff]

/-- The loop body of `compute_daily_cpi` (groupby distinct surviving
category ids, then merge back with the leaf categories and sum) equals
the spec-side formula: the sum over exactly those leaf-category rows
with at least one surviving product of `exp(mean log ratio) * weight`,
with no renormalization. -/
theorem dailyValue_eq_spec (cats : List Category) (m : List MergedRow)
    (rows : List PriceRow) (T : Nat) :
    dailyValue cats m rows T = specDailyValue cats m rows T := by
  unfold dailyValue specDailyValue
  rw [listSum_flatMap]
  rw [List.map_congr_left (fun c _ => listSum_filterMap_ite (leafCategories cats)
    (fun l => l.category_id == c)
    (fun l => Real.exp (meanLogRatio (validRatios m rows T) c) * (l.weight : ℝ)))]
  rw [listSum_comm]
  apply congrArg List.sum
  apply List.map_congr_left
  intro l _
  rw [show (fun c => if l.category_id == c then
      Real.exp (meanLogRatio (validRatios m rows T) c) * (l.weight : ℝ) else 0) =
    (fun c => if l.category_id == c then
      Real.exp (meanLogRatio (validRatios m rows T) c) * (l.weight : ℝ) else 0) from rfl]
  rw [listSum_ite_of_nodup _ (List.nodup_dedup _) l.category_id
    (fun c => Real.exp (meanLogRatio (validRatios m rows T) c) * (l.weight : ℝ))]
  have hmem : l.category_id ∈ ((validRatios m rows T).map (fun x => x.category_id)).dedup ↔
      ¬ survivors (validRatios m rows T) l.category_id = [] := by
    rw [List.mem_dedup, List.mem_map, survivors_eq_nil_iff]
    push_neg
    constructor
    · rintro ⟨x, hx, hxc⟩; exact ⟨x, hx, hxc⟩
    · rintro ⟨x, hx, hxc⟩; exact ⟨x, hx, hxc⟩
  by_cases hs : survivors (validRatios m rows T) l.category_id = []
  · rw [if_neg (fun hmemC => (hmem.mp hmemC) hs), if_pos hs]
  · rw [if_pos (hmem.mpr hs), if_neg hs]

/-! ### The per-date loop and the date axis -/

theorem buildSeries_eq_none_of_mem {f : Nat → Option ℝ} {l : List Nat} {d : Nat}
    (hd : d ∈ l) (hf : f d = none) : buildSeries f l = none := by
  induction l with
  | nil => cases hd
  | cons a as ih =>
    cases List.mem_cons.mp hd with
    | inl h => subst h; simp [buildSeries, hf]
    | inr h =>
      cases hfa : f a with
      | none => simp [buildSeries, hfa]
      | some v => simp [buildSeries, hfa, ih h]

theorem buildSeries_eq_map {f : Nat → Option ℝ} {g : Nat → ℝ} {l : List Nat}
    (h : ∀ d ∈ l, f d = some (g d)) : buildSeries f l = some (l.map g) := by
  induction l with
  | nil => rfl
  | cons a as ih =>
    simp [buildSeries, h a (List.mem_cons_self a as),
      ih (fun d hd => h d (List.mem_cons.mpr (Or.inr hd)))]

theorem mem_allDates {s e d : Nat} : d ∈ allDates s e ↔ s ≤ d ∧ d ≤ e := by
  simp only [allDates, List.mem_map, List.mem_range]
  constructor
  · rintro ⟨k, hk, rfl⟩; omega
  · intro hd; exact ⟨d - s, by omega, by omega⟩

/-- C10: if some date `d` in `[s, e]` (including `s` itself) has no
price row for any product, the pivoted table has no column for `d` and
`compute_daily_cpi` raises a `KeyError` when selecting that column,
instead of producing a value for that date. -/
theorem compute_daily_raises_on_gap_date (cats : List Category)
    (prods : List Product) (prices : List PriceRow) (s e d : Nat)
    (hsd : s ≤ d) (hde : d ≤ e)
    (hcol : hasColumn (fetchRows prices s e) d = false) :
    computeDailyCPI cats prods prices s e = none := by
  unfold computeDailyCPI dailyFromRows
  by_cases hs : hasColumn (fetchRows prices s e) s
  · rw [if_pos hs]
    exact buildSeries_eq_none_of_mem (mem_allDates.mpr ⟨hsd, hde⟩) (by simp [hcol])
  · rw [if_neg hs]

/-- A returned daily series is the date-by-date map of the rounded
loop-body value over the date axis. -/
theorem computeDailyCPI_eq_map {cats : List Category} {prods : List Product}
    {prices : List PriceRow} {s e : Nat} {out : List ℝ}
    (h : computeDailyCPI cats prods prices s e = some out) :
    out = (allDates s e).map (fun T => round4 (dailyValue cats
      (mergedData cats prods (fetchRows prices s e) s)
      (fetchRows prices s e) T)) := by
  unfold computeDailyCPI dailyFromRows at h
  by_cases hs : hasColumn (fetchRows prices s e) s
  · rw [if_pos hs] at h
    have hforall : ∀ d ∈ allDates s e,
        (if hasColumn (fetchRows prices s e) d then
          some (round4 (dailyValue cats
            (mergedData cats prods (fetchRows prices s e) s)
            (fetchRows prices s e) d))
        else none) =
        some (round4 (dailyValue cats
          (mergedData cats prods (fetchRows prices s e) s)
          (fetchRows prices s e) d)) := by
      intro d hd
      by_cases hc : hasColumn (fetchRows prices s e) d
      · rw [if_pos hc]
      · exfalso
        rw [buildSeries_eq_none_of_mem hd (by simp [hc])] at h
        exact Option.noConfusion h
    rw [buildSeries_eq_map hforall] at h
    exact (Option.some_inj.mp h).symm
  · rw [if_neg hs] at h
    exact Option.noConfusion h

/-- C6: whenever `compute_daily_cpi` returns a series, the series is,
date by date in order, `round4` of: the sum over exactly those
leaf-category rows having at least one surviving product that day of
`exp(mean(log price ratio)) * weight`; a leaf category with no
surviving product contributes nothing and no weight renormalization
takes place. -/
theorem daily_series_is_leaf_weighted_sum (cats : List Category)
    (prods : List Product) (prices : List PriceRow) {s e : Nat}
    {out : List ℝ} (h : computeDailyCPI cats prods prices s e = some out) :
    out = (allDates s e).map (fun T => round4 (specDailyValue cats
      (mergedData cats prods (fetchRows prices s e) s)
      (fetchRows prices s e) T)) := by
  rw [computeDailyCPI_eq_map h]
  apply List.map_congr_left
  intro T _
  rw [dailyValue_eq_spec]

/-- C8: a failed query is caught by `compute_cpi` and turned into
`None`, while `compute_daily_cpi` has no guard and the failure
propagates out of the call unchanged. -/
theorem query_failure_semantics {E A : Type} (err : E) (cats : List Category)
    (prods : List Product) (s e : Nat) :
    compute_cpi_run (Except.error err : Except E (List A)) = none ∧
      compute_daily_cpi_run cats prods s e
        (Except.error err : Except E (List PriceRow)) = Except.error err :=
  ⟨rfl, rfl⟩

/-! ### Rounding helper and the concrete scenario of the spec -/

theorem round4_eq_self_of_mul (x : ℝ) (n : ℤ) (h : x * 10000 = (n : ℝ)) :
    round4 x = x := by
  unfold round4
  rw [h, round_intCast, ← h, mul_div_cancel_right₀ _ (by norm_num : (10000:ℝ) ≠ 0)]

/-- Scenario data: leaf categories A (id 1, weight 0.6) and B (id 2,
weight 0.4), both with root parent `-1`. -/
def exCats : List Category := [⟨1, -1, 6/10⟩, ⟨2, -1, 4/10⟩]

/-- Scenario data: P1 (id 1) in A, P2 (id 2) in B. -/
def exProds : List Product := [⟨1, 1⟩, ⟨2, 2⟩]

/-- Scenario data: P1 is 10 on day 0 and 11 on day 1; P2 is 20 on both
days. -/
def exPrices : List PriceRow := [⟨1, 10, 0⟩, ⟨1, 11, 1⟩, ⟨2, 20, 0⟩, ⟨2, 20, 1⟩]

theorem exDaily0 : dailyValue exCats (mergedData exCats exProds exPrices 0)
    exPrices 0 = 1 := by
  rw [dailyValue_eq_spec]
  have hv : validRatios (mergedData exCats exProds exPrices 0) exPrices 0 =
      [⟨1, 1, 10, 10⟩, ⟨2, 2, 20, 20⟩] := rfl
  unfold specDailyValue
  rw [hv, show leafCategories exCats = exCats from rfl]
  show (if survivors [⟨1, 1, 10, 10⟩, ⟨2, 2, 20, 20⟩] 1 = [] then (0:ℝ)
      else Real.exp (meanLogRatio [⟨1, 1, 10, 10⟩, ⟨2, 2, 20, 20⟩] 1) * ((6/10 : ℚ) : ℝ)) +
    ((if survivors [⟨1, 1, 10, 10⟩, ⟨2, 2, 20, 20⟩] 2 = [] then (0:ℝ)
      else Real.exp (meanLogRatio [⟨1, 1, 10, 10⟩, ⟨2, 2, 20, 20⟩] 2) * ((4/10 : ℚ) : ℝ)) + 0) = 1
  rw [if_neg (by decide), if_neg (by decide)]
  have hm1 : meanLogRatio [⟨1, 1, 10, 10⟩, ⟨2, 2, 20, 20⟩] 1 =
      Real.log (((10:ℚ):ℝ) / ((10:ℚ):ℝ)) := by
    unfold meanLogRatio
    rw [show survivors [⟨1, 1, 10, 10⟩, ⟨2, 2, 20, 20⟩] 1 = [⟨1, 1, 10, 10⟩] from rfl]
    simp
  have hm2 : meanLogRatio [⟨1, 1, 10, 10⟩, ⟨2, 2, 20, 20⟩] 2 =
      Real.log (((20:ℚ):ℝ) / ((20:ℚ):ℝ)) := by
    unfold meanLogRatio
    rw [show survivors [⟨1, 1, 10, 10⟩, ⟨2, 2, 20, 20⟩] 2 = [⟨2, 2, 20, 20⟩] from rfl]
    simp
  rw [hm1, hm2]
  push_cast
  rw [show Real.log (10 / 10 : ℝ) = 0 by norm_num [Real.log_one]]
  rw [show Real.log (20 / 20 : ℝ) = 0 by norm_num [Real.log_one]]
  rw [Real.exp_zero]
  norm_num

theorem exDaily1 : dailyValue exCats (mergedData exCats exProds exPrices 0)
    exPrices 1 = 106/100 := by
  rw [dailyValue_eq_spec]
  have hv : validRatios (mergedData exCats exProds exPrices 0) exPrices 1 =
      [⟨1, 1, 10, 11⟩, ⟨2, 2, 20, 20⟩] := rfl
  unfold specDailyValue
  rw [hv, show leafCategories exCats = exCats from rfl]
  show (if survivors [⟨1, 1, 10, 11⟩, ⟨2, 2, 20, 20⟩] 1 = [] then (0:ℝ)
      else Real.exp (meanLogRatio [⟨1, 1, 10, 11⟩, ⟨2, 2, 20, 20⟩] 1) * ((6/10 : ℚ) : ℝ)) +
    ((if survivors [⟨1, 1, 10, 11⟩, ⟨2, 2, 20, 20⟩] 2 = [] then (0:ℝ)
      else Real.exp (meanLogRatio [⟨1, 1, 10, 11⟩, ⟨2, 2, 20, 20⟩] 2) * ((4/10 : ℚ) : ℝ)) + 0) = 106/100
  rw [if_neg (by decide), if_neg (by decide)]
  have hm1 : meanLogRatio [⟨1, 1, 10, 11⟩, ⟨2, 2, 20, 20⟩] 1 =
      Real.log (((11:ℚ):ℝ) / ((10:ℚ):ℝ)) := by
    unfold meanLogRatio
    rw [show survivors [⟨1, 1, 10, 11⟩, ⟨2, 2, 20, 20⟩] 1 = [⟨1, 1, 10, 11⟩] from rfl]
    simp
  have hm2 : meanLogRatio [⟨1, 1, 10, 11⟩, ⟨2, 2, 20, 20⟩] 2 =
      Real.log (((20:ℚ):ℝ) / ((20:ℚ):ℝ)) := by
    unfold meanLogRatio
    rw [show survivors [⟨1, 1, 10, 11⟩, ⟨2, 2, 20, 20⟩] 2 = [⟨2, 2, 20, 20⟩] from rfl]
    simp
  rw [hm1, hm2]
  push_cast
  rw [show Real.log (20 / 20 : ℝ) = 0 by norm_num [Real.log_one]]
  rw [Real.exp_zero, Real.exp_log (by norm_num : (0:ℝ) < 11/10)]
  norm_num

/-- C3: on the spec scenario (A weight 0.6 with P1: 10 then 11; B
weight 0.4 with P2: 20 then 20), `compute_daily_cpi(day0, day1)`
returns CPI(day0) = 1.0 and CPI(day1) = (11/10)*0.6 + (20/20)*0.4
= 1.06. -/
theorem scenario_two_categories_series :
    computeDailyCPI exCats exProds exPrices 0 1 = some [1, 106/100] := by
  have hmap : ∀ d ∈ [0, 1],
      (fun T => if hasColumn exPrices T then
        some (round4 (dailyValue exCats (mergedData exCats exProds exPrices 0)
          exPrices T))
      else none) d =
      some ((fun T => round4 (dailyValue exCats
        (mergedData exCats exProds exPrices 0) exPrices T)) d) := by
    intro d hd
    have hc : hasColumn exPrices d = true := by fin_cases hd <;> decide
    simp [hc]
  unfold computeDailyCPI dailyFromRows
  rw [show fetchRows exPrices 0 1 = exPrices from rfl]
  rw [if_pos (by decide : hasColumn exPrices 0 = true)]
  rw [show allDates 0 1 = [0, 1] from rfl]
  rw [buildSeries_eq_map hmap]
  show some [round4 (dailyValue exCats (mergedData exCats exProds exPrices 0) exPrices 0),
    round4 (dailyValue exCats (mergedData exCats exProds exPrices 0) exPrices 1)] = _
  rw [exDaily0, exDaily1]
  rw [round4_eq_self_of_mul 1 10000 (by norm_num),
    round4_eq_self_of_mul (106/100) 10600 (by norm_num)]

/-! ### C1: the base price is the observation exactly at start -/

theorem pivotRaw_some_row {rows : List PriceRow} {p : Int} {d : Nat} {q : ℚ}
    (h : pivotRaw rows p d = some q) :
    ∃ r ∈ rows, r.product_id = p ∧ r.date = d ∧ r.price = q := by
  unfold pivotRaw at h
  cases hl : rows.filter (fun r => r.product_id == p && r.date == d) with
  | nil => rw [hl] at h; exact Option.noConfusion h
  | cons a as =>
    rw [hl] at h
    have ha : a ∈ rows.filter (fun r => r.product_id == p && r.date == d) :=
      hl ▸ List.mem_cons_self a as
    have hm := List.mem_filter.mp ha
    have hpred := hm.2
    simp only [Bool.and_eq_true, beq_iff_eq] at hpred
    exact ⟨a, hm.1, hpred.1, hpred.2, by simpa using h⟩

/-- C1 (amended): the base price used by `compute_daily_cpi` is the
first price observation on `start` exactly — the query only fetches
rows dated in `[start, end]`, so no forward-fill from a date before
`start` can occur — and a product whose base price is therefore
undefined is excluded from every date's aggregation. -/
theorem basePrice_requires_start_observation (cats : List Category)
    (prods : List Product) (prices : List PriceRow) (s e : Nat) (p : Int) :
    ffillAt (fetchRows prices s e) p s = pivotRaw (fetchRows prices s e) p s ∧
      (pivotRaw (fetchRows prices s e) p s = none → ∀ T,
        ∀ x ∈ validRatios (mergedData cats prods (fetchRows prices s e) s)
          (fetchRows prices s e) T, x.product_id ≠ p) := by
  have hstart : ffillAt (fetchRows prices s e) p s =
      pivotRaw (fetchRows prices s e) p s :=
    ffillAt_at_start fetchRows_date_ge
  refine ⟨hstart, ?_⟩
  intro hnone T x hx hxp
  obtain ⟨r, hr, hrp, hrc, hrb, hbpos, hcur⟩ := mem_validRatios hx
  have hbase := (mem_mergedData hr).1
  have hcontra : (some x.base : Option ℚ) = none := by
    rw [← hrb, hbase, hrp, hxp, hstart, hnone]
  exact Option.noConfusion hcontra

/-- C1 counterexample data: one leaf category per product; product 1
is observed on day 0 (before start = day 1) and on day 2, but not on
day 1; product 2 keeps the start column alive. -/
def cexCats : List Category := [⟨1, -1, 1⟩, ⟨2, -1, 1⟩]

/-- C1 counterexample products. -/
def cexProds : List Product := [⟨1, 1⟩, ⟨2, 2⟩]

/-- C1 counterexample prices. -/
def cexPrices : List PriceRow := [⟨1, 10, 0⟩, ⟨1, 11, 2⟩, ⟨2, 5, 1⟩, ⟨2, 5, 2⟩]

/-- C1 counterexample: product 1 has an observation (price 10) on a
date on or before start = 1, so by the claim its base price would be
10 and it would be included; but `compute_daily_cpi(1, 2)` fetches no
row before day 1, its base price is undefined (`none`), and product 1
is excluded from the aggregation of day 2. -/
theorem basePrice_lookback_cex :
    mostRecentOnOrBefore cexPrices 1 1 = some 10 ∧
      ffillAt (fetchRows cexPrices 1 2) 1 1 = none ∧
      ∀ x ∈ validRatios (mergedData cexCats cexProds (fetchRows cexPrices 1 2) 1)
        (fetchRows cexPrices 1 2) 2, x.product_id ≠ 1 := by
  refine ⟨by decide, by decide, by decide⟩

theorem basePrice_requires_start_observation_witness :
    pivotRaw (fetchRows cexPrices 1 2) 1 1 = none ∧
      ∀ x ∈ validRatios (mergedData cexCats cexProds (fetchRows cexPrices 1 2) 1)
        (fetchRows cexPrices 1 2) 2, x.product_id ≠ 1 :=
  ⟨by decide,
    (basePrice_requires_start_observation cexCats cexProds cexPrices 1 2 1).2 (by decide) 2⟩

/-! ### C5: forward-fill uses the previous day inside the range -/

/-- C5: for a date `T` strictly inside `[s, e]`, a product with no
price observation on `T` but a (first) observation `v` on `T - 1` has
forward-filled current price `v` at `T` (assuming date `T`'s column
exists, i.e. some product has a row on `T`, so that the loop's column
lookup succeeds). -/
theorem forward_fill_uses_previous_day (prices : List PriceRow)
    (s e T : Nat) (p : Int) (v : ℚ) (hsT : s < T) (hTe : T < e)
    (hnoT : ∀ r ∈ prices, r.product_id = p → r.date ≠ T)
    (hprev : pivotRaw prices p (T - 1) = some v)
    (hcol : hasColumn (fetchRows prices s e) T = true) :
    ffillAt (fetchRows prices s e) p T = some v := by
  obtain ⟨d, rfl⟩ : ∃ d, T = d + 1 := ⟨T - 1, by omega⟩
  have hnoT2 : pivotRaw (fetchRows prices s e) p (d + 1) = none :=
    pivotRaw_eq_none_of_no_row (fun r hr hp hd => hnoT r (mem_fetchRows hr).1 hp hd)
  rw [ffillAt_succ_of_none hnoT2]
  have hd : pivotRaw (fetchRows prices s e) p d = some v := by
    rw [pivotRaw_fetchRows p (by omega) (by omega)]
    simpa using hprev
  exact ffillAt_of_pivotRaw hd

/-- C5 witness data: product 1 is observed on days 0, 1 and 3 but not
on day 2; product 2 keeps day 2's column alive. -/
def w5prices : List PriceRow := [⟨1, 10, 0⟩, ⟨1, 12, 1⟩, ⟨2, 7, 2⟩, ⟨1, 9, 3⟩]

theorem forward_fill_uses_previous_day_witness :
    ffillAt (fetchRows w5prices 0 3) 1 2 = some 12 :=
  forward_fill_uses_previous_day w5prices 0 3 2 1 12 (by decide) (by decide)
    (by decide) (by decide) (by decide)

/-! ### C7: base price at most zero is filtered before ratio and log -/

/-- C7: every row that reaches the ratio/log step has a strictly
positive base price, and a product whose base price is defined but at
most 0 (including 0) is excluded from every date's aggregation, so the
ratio and log are never evaluated for it. -/
theorem nonpositive_base_price_excluded (cats : List Category)
    (prods : List Product) (prices : List PriceRow) (s e : Nat) :
    (∀ T, ∀ x ∈ validRatios (mergedData cats prods (fetchRows prices s e) s)
        (fetchRows prices s e) T, 0 < x.base) ∧
      (∀ p b, ffillAt (fetchRows prices s e) p s = some b → b ≤ 0 → ∀ T,
        ∀ x ∈ validRatios (mergedData cats prods (fetchRows prices s e) s)
          (fetchRows prices s e) T, x.product_id ≠ p) := by
  constructor
  · intro T x hx
    obtain ⟨r, hr, _, _, _, hb, _⟩ := mem_validRatios hx
    exact hb
  · intro p b hb hble T x hx hxp
    obtain ⟨r, hr, hrp, _, hrb, hbpos, _⟩ := mem_validRatios hx
    have hbase := (mem_mergedData hr).1
    have hsome : (some x.base : Option ℚ) = some b := by
      rw [← hrb, hbase, hrp, hxp, hb]
    rw [Option.some_inj.mp hsome] at hbpos
    exact absurd hbpos (not_lt.mpr hble)

/-- C7 witness data: product 1's base price on day 0 is 0. -/
def w7cats : List Category := [⟨1, -1, 1⟩]

/-- C7 witness products. -/
def w7prods : List Product := [⟨1, 1⟩]

/-- C7 witness prices. -/
def w7prices : List PriceRow := [⟨1, 0, 0⟩, ⟨1, 3, 1⟩]

theorem nonpositive_base_price_excluded_witness :
    ∀ x ∈ validRatios (mergedData w7cats w7prods (fetchRows w7prices 0 1) 0)
      (fetchRows w7prices 0 1) 1, x.product_id ≠ 1 :=
  (nonpositive_base_price_excluded w7cats w7prods w7prices 0 1).2 1 0
    (by decide) (by decide) 1

/-! ### C9: leaf determination -/

/-- C9 counterexample data: a single category whose `parent` field is
its own id. -/
def c9cats : List Category := [⟨1, 1, 1⟩]

/-- C9 counterexample: no *other* category's parent equals category
1's id (there is no other category at all), so by the claim category 1
would be a leaf; but both computations scan every row's parent field,
category 1's own included, and treat it as a non-leaf. -/
theorem self_parent_leaf_cex :
    (∀ c ∈ c9cats, c ≠ (⟨1, 1, 1⟩ : Category) → c.parent ≠ 1) ∧
      isLeafDaily c9cats ⟨1, 1, 1⟩ = false ∧
      isLeafSQL c9cats ⟨1, 1, 1⟩ = false := by
  refine ⟨by decide, by decide, by decide⟩

/-- C9 (amended): in `compute_daily_cpi`, category `c` is treated as a
leaf iff no category row's parent field — `c`'s own row included —
equals `c`'s id; in the `compute_cpi` SQL the scan additionally
ignores parent fields equal to the sentinel `-1`. -/
theorem leaf_iff_no_parent_reference (cats : List Category) (c : Category) :
    (isLeafDaily cats c = true ↔ ∀ d ∈ cats, d.parent ≠ c.category_id) ∧
      (isLeafSQL cats c = true ↔ ∀ d ∈ cats, d.parent ≠ -1 → d.parent ≠ c.category_id) := by
  constructor
  · simp [isLeafDaily]
  · simp [isLeafSQL, not_and]

theorem leaf_iff_no_parent_reference_witness :
    isLeafDaily [(⟨1, -1, 1⟩ : Category)] ⟨1, -1, 1⟩ = true ∧
      isLeafSQL [(⟨1, -1, 1⟩ : Category)] ⟨1, -1, 1⟩ = true :=
  ⟨(leaf_iff_no_parent_reference [⟨1, -1, 1⟩] ⟨1, -1, 1⟩).1.mpr (by decide),
    (leaf_iff_no_parent_reference [⟨1, -1, 1⟩] ⟨1, -1, 1⟩).2.mpr (by decide)⟩

/-! ### C2: the SQL variant requires exact endpoint observations -/

theorem maxIfPrice_some_row {rows : List PriceRow} {p : Int} {d : Nat} {q : ℚ}
    (h : maxIfPrice rows p d = some q) :
    ∃ r ∈ rows, r.product_id = p ∧ r.date = d := by
  unfold maxIfPrice at h
  cases hl : rows.filter (fun r => r.product_id == p && r.date == d) with
  | nil => rw [hl] at h; simp at h
  | cons a as =>
    have ha : a ∈ rows.filter (fun r => r.product_id == p && r.date == d) :=
      hl ▸ List.mem_cons_self a as
    have hm := List.mem_filter.mp ha
    have hpred := hm.2
    simp only [Bool.and_eq_true, beq_iff_eq] at hpred
    exact ⟨a, hm.1, hpred.1, hpred.2⟩

theorem mem_endpointRows {prices : List PriceRow} {s e : Nat} {r : PriceRow}
    (h : r ∈ endpointRows prices s e) : r ∈ prices :=
  (List.mem_filter.mp h).1

/-- C2: in the single-point `compute_cpi` query, a product row survives
the joins and filters only if the product has a price observation
exactly on `start_date` and exactly on `end_date`; no forward-fill is
applied, so a product observed at only one endpoint contributes
nothing. -/
theorem sql_contribution_requires_both_endpoints (cats : List Category)
    (prods : List Product) (prices : List PriceRow) (s e : Nat) :
    ∀ x ∈ sqlValidRows cats prods prices s e,
      (∃ r ∈ prices, r.product_id = x.product_id ∧ r.date = s) ∧
        (∃ r ∈ prices, r.product_id = x.product_id ∧ r.date = e) := by
  intro x hx
  obtain ⟨p, hp, hin⟩ := List.mem_flatMap.mp hx
  by_cases hc : (priceDataProducts prices s e).contains p.product_id
  · rw [if_pos hc] at hin
    obtain ⟨l, hl, hlx⟩ := List.mem_filterMap.mp hin
    by_cases hcc : l.category_id = p.category_id
    · rw [if_pos (beq_iff_eq.mpr hcc)] at hlx
      cases hbs : maxIfPrice (endpointRows prices s e) p.product_id s with
      | none => rw [hbs] at hlx; exact Option.noConfusion hlx
      | some b =>
        cases hre : maxIfPrice (endpointRows prices s e) p.product_id e with
        | none => rw [hbs, hre] at hlx; exact Option.noConfusion hlx
        | some q =>
          rw [hbs, hre] at hlx
          have hlx2 : (if 0 < b then
              some (⟨p.product_id, p.category_id, b, q⟩ : VRow) else none) = some x := hlx
          by_cases hpos : 0 < b
          · rw [if_pos hpos] at hlx2
            have hxe := Option.some_inj.mp hlx2
            subst hxe
            obtain ⟨r1, hr1, hr1p, hr1d⟩ := maxIfPrice_some_row hbs
            obtain ⟨r2, hr2, hr2p, hr2d⟩ := maxIfPrice_some_row hre
            exact ⟨⟨r1, mem_endpointRows hr1, hr1p, hr1d⟩,
              ⟨r2, mem_endpointRows hr2, hr2p, hr2d⟩⟩
          · rw [if_neg hpos] at hlx2
            exact Option.noConfusion hlx2
    · rw [if_neg (by simpa using hcc)] at hlx
      exact Option.noConfusion hlx
  · rw [if_neg hc] at hin
    cases hin

/-- C2 witness data. -/
def w2cats : List Category := [⟨1, -1, 1⟩]

/-- C2 witness products. -/
def w2prods : List Product := [⟨1, 1⟩]

/-- C2 witness prices: product 1 observed on both endpoints 0 and 1. -/
def w2prices : List PriceRow := [⟨1, 10, 0⟩, ⟨1, 11, 1⟩]

theorem sql_contribution_requires_both_endpoints_witness :
    (⟨1, 1, 10, 11⟩ : VRow) ∈ sqlValidRows w2cats w2prods w2prices 0 1 ∧
      ((∃ r ∈ w2prices, r.product_id = 1 ∧ r.date = 0) ∧
        (∃ r ∈ w2prices, r.product_id = 1 ∧ r.date = 1)) :=
  ⟨by decide,
    sql_contribution_requires_both_endpoints w2cats w2prods w2prices 0 1
      ⟨1, 1, 10, 11⟩ (by decide)⟩

/-! ### C4: the first value of the series -/

theorem head?_allDates {s e : Nat} (h : s ≤ e) : (allDates s e).head? = some s := by
  unfold allDates
  obtain ⟨n, hn⟩ : ∃ n, e + 1 - s = n + 1 := ⟨e - s, by omega⟩
  rw [hn, List.range_succ_eq_map]
  simp

/-- When every date of the axis has a pivot column, `compute_daily_cpi`
returns the series of rounded loop-body values. -/
theorem computeDailyCPI_eq_some_map (cats : List Category) (prods : List Product)
    (prices : List PriceRow) (s e : Nat)
    (hs : hasColumn (fetchRows prices s e) s = true)
    (hall : ∀ d ∈ allDates s e, hasColumn (fetchRows prices s e) d = true) :
    computeDailyCPI cats prods prices s e =
      some ((allDates s e).map (fun T => round4 (dailyValue cats
        (mergedData cats prods (fetchRows prices s e) s)
        (fetchRows prices s e) T))) := by
  unfold computeDailyCPI dailyFromRows
  rw [if_pos hs]
  exact buildSeries_eq_map (fun d hd => by rw [if_pos (hall d hd)])

theorem validRatios_start_cur_eq_base {cats : List Category}
    {prods : List Product} {rows : List PriceRow} {s : Nat} {x : VRow}
    (hx : x ∈ validRatios (mergedData cats prods rows s) rows s) :
    x.cur = x.base := by
  obtain ⟨r, hr, hrp, _, hrb, _, hcur⟩ := mem_validRatios hx
  have hbase := (mem_mergedData hr).1
  have h1 : (some x.cur : Option ℚ) = some x.base := by
    rw [← hcur, ← hrp, ← hbase, hrb]
  exact Option.some_inj.mp h1

theorem meanLogRatio_start (cats : List Category) (prods : List Product)
    (rows : List PriceRow) (s : Nat) (c : Int) :
    meanLogRatio (validRatios (mergedData cats prods rows s) rows s) c = 0 := by
  unfold meanLogRatio
  have hmap : (survivors (validRatios (mergedData cats prods rows s) rows s) c).map
      (fun x => Real.log ((x.cur : ℝ) / (x.base : ℝ))) =
      (survivors (validRatios (mergedData cats prods rows s) rows s) c).map
        (fun _ => (0 : ℝ)) := by
    apply List.map_congr_left
    intro x hx
    have hxv : x ∈ validRatios (mergedData cats prods rows s) rows s :=
      (List.mem_filter.mp hx).1
    have hcb : x.cur = x.base := validRatios_start_cur_eq_base hxv
    obtain ⟨_, _, _, _, _, hbpos, _⟩ := mem_validRatios hxv
    have hb0 : ((x.base : ℚ) : ℝ) ≠ 0 :=
      ne_of_gt (by exact_mod_cast hbpos)
    rw [hcb, div_self hb0, Real.log_one]
  rw [hmap, listSum_map_zero, zero_div]

theorem listSum_cast_weights (l : List Category) :
    (l.map (fun c => ((c.weight : ℚ) : ℝ))).sum =
      (((l.map (fun c => c.weight)).sum : ℚ) : ℝ) := by
  induction l with
  | nil => simp
  | cons a as ih => simp [ih]

/-- C4 (amended): if the leaf-category weights sum to 1, every leaf
category has at least one product with a positive first observation
exactly on `start`, and `compute_daily_cpi` returns a series, then the
first value of the series is 1.0 (every surviving product's price
relative at `start` is 1). -/
theorem first_value_one_with_category_coverage (cats : List Category)
    (prods : List Product) (prices : List PriceRow) (s e : Nat) (out : List ℝ)
    (hse : s ≤ e)
    (hw : ((leafCategories cats).map (fun c => c.weight)).sum = 1)
    (hcov : ∀ l ∈ leafCategories cats, ∃ p ∈ prods,
      p.category_id = l.category_id ∧
        ∃ b, pivotRaw (fetchRows prices s e) p.product_id s = some b ∧ 0 < b)
    (hout : computeDailyCPI cats prods prices s e = some out) :
    out.head? = some 1 := by
  have hdv : dailyValue cats (mergedData cats prods (fetchRows prices s e) s)
      (fetchRows prices s e) s = 1 := by
    rw [dailyValue_eq_spec]
    unfold specDailyValue
    have hcong : ∀ l ∈ leafCategories cats,
        (if survivors (validRatios (mergedData cats prods (fetchRows prices s e) s)
            (fetchRows prices s e) s) l.category_id = [] then (0:ℝ)
          else Real.exp (meanLogRatio (validRatios
            (mergedData cats prods (fetchRows prices s e) s)
            (fetchRows prices s e) s) l.category_id) * (l.weight : ℝ)) =
        ((l.weight : ℚ) : ℝ) := by
      intro l hl
      obtain ⟨p, hp, hpc, b, hb, hbpos⟩ := hcov l hl
      have hff : ffillAt (fetchRows prices s e) p.product_id s = some b := by
        rw [ffillAt_at_start fetchRows_date_ge]
        exact hb
      have hxmem : (⟨p.product_id, l.category_id, b, b⟩ : VRow) ∈
          validRatios (mergedData cats prods (fetchRows prices s e) s)
            (fetchRows prices s e) s := by
        apply List.mem_filterMap.mpr
        refine ⟨⟨p.product_id, ffillAt (fetchRows prices s e) p.product_id s,
          l.category_id, l.weight⟩, ?_, ?_⟩
        · apply List.mem_flatMap.mpr
          refine ⟨p, ?_, ?_⟩
          · apply List.mem_filter.mpr
            refine ⟨hp, ?_⟩
            obtain ⟨r0, hr0, hr0p, hr0d, _⟩ := pivotRaw_some_row hb
            exact List.any_eq_true.mpr ⟨r0, hr0, by simpa using hr0p⟩
          · apply List.mem_filterMap.mpr
            refine ⟨l, hl, ?_⟩
            rw [if_pos (beq_iff_eq.mpr hpc.symm)]
        · show (match ffillAt (fetchRows prices s e) p.product_id s,
              ffillAt (fetchRows prices s e) p.product_id s with
            | some b2, some c2 => if 0 < b2 then
                some (⟨p.product_id, l.category_id, b2, c2⟩ : VRow) else none
            | _, _ => none) = some (⟨p.product_id, l.category_id, b, b⟩ : VRow)
          rw [hff]
          show (if 0 < b then
              some (⟨p.product_id, l.category_id, b, b⟩ : VRow) else none) = _
          rw [if_pos hbpos]
      have hsne : ¬ survivors (validRatios
          (mergedData cats prods (fetchRows prices s e) s)
          (fetchRows prices s e) s) l.category_id = [] := by
        intro hnil
        exact (survivors_eq_nil_iff _ _).mp hnil _ hxmem rfl
      rw [if_neg hsne, meanLogRatio_start, Real.exp_zero, one_mul]
    rw [List.map_congr_left hcong, listSum_cast_weights, hw]
    norm_num
  have hmap := computeDailyCPI_eq_map hout
  rw [hmap]
  have hhead : (allDates s e).head? = some s := head?_allDates hse
  rw [List.head?_map, hhead]
  show some (round4 (dailyValue cats
    (mergedData cats prods (fetchRows prices s e) s) (fetchRows prices s e) s)) = _
  rw [hdv, round4_eq_self_of_mul 1 10000 (by norm_num)]

/-- C4 counterexample data: weights 0.6 + 0.4 = 1, but leaf category 2
has no products at all. -/
def c4cexCats : List Category := [⟨1, -1, 6/10⟩, ⟨2, -1, 4/10⟩]

/-- C4 counterexample products: only category 1 is populated. -/
def c4cexProds : List Product := [⟨1, 1⟩]

/-- C4 counterexample prices. -/
def c4cexPrices : List PriceRow := [⟨1, 10, 0⟩]

/-- C4 counterexample: the leaf weights sum to 1 and every product in
the products table has a positive observation exactly on start, yet
the first value of the returned series is 0.6, not 1.0 — leaf category
2 has no product, its weight is silently dropped, and no
renormalization occurs. -/
theorem first_value_one_cex :
    ((leafCategories c4cexCats).map (fun c => c.weight)).sum = 1 ∧
      (∀ p ∈ c4cexProds, ∃ b,
        pivotRaw (fetchRows c4cexPrices 0 0) p.product_id 0 = some b ∧ 0 < b) ∧
      computeDailyCPI c4cexCats c4cexProds c4cexPrices 0 0 = some [(6:ℝ)/10] ∧
      ((6:ℝ)/10) ≠ 1 := by
  refine ⟨?_, ?_, ?_, by norm_num⟩
  · rw [show leafCategories c4cexCats = c4cexCats from rfl]
    show (6/10 : ℚ) + (4/10 + 0) = 1
    norm_num
  · intro p hp
    have hpe : p = ⟨1, 1⟩ := List.mem_singleton.mp hp
    subst hpe
    exact ⟨10, by decide, by decide⟩
  · have hsome := computeDailyCPI_eq_some_map c4cexCats c4cexProds c4cexPrices 0 0
      (by decide) (fun d hd => by fin_cases hd <;> decide)
    rw [hsome, show allDates 0 0 = [0] from rfl]
    have hdv : dailyValue c4cexCats
        (mergedData c4cexCats c4cexProds (fetchRows c4cexPrices 0 0) 0)
        (fetchRows c4cexPrices 0 0) 0 = (6:ℝ)/10 := by
      rw [dailyValue_eq_spec]
      unfold specDailyValue
      rw [show validRatios (mergedData c4cexCats c4cexProds (fetchRows c4cexPrices 0 0) 0)
        (fetchRows c4cexPrices 0 0) 0 = [⟨1, 1, 10, 10⟩] from rfl]
      rw [show leafCategories c4cexCats = c4cexCats from rfl]
      show (if survivors [⟨1, 1, 10, 10⟩] 1 = [] then (0:ℝ)
          else Real.exp (meanLogRatio [⟨1, 1, 10, 10⟩] 1) * ((6/10 : ℚ) : ℝ)) +
        ((if survivors [⟨1, 1, 10, 10⟩] 2 = [] then (0:ℝ)
          else Real.exp (meanLogRatio [⟨1, 1, 10, 10⟩] 2) * ((4/10 : ℚ) : ℝ)) + 0) = (6:ℝ)/10
      rw [if_neg (by decide), if_pos (by decide)]
      have hm : meanLogRatio [⟨1, 1, 10, 10⟩] 1 =
          Real.log (((10:ℚ):ℝ) / ((10:ℚ):ℝ)) := by
        unfold meanLogRatio
        rw [show survivors [⟨1, 1, 10, 10⟩] 1 = [⟨1, 1, 10, 10⟩] from rfl]
        simp
      rw [hm]
      push_cast
      rw [show Real.log ((10:ℝ) / 10) = 0 by norm_num [Real.log_one]]
      rw [Real.exp_zero]
      norm_num
    show some [round4 (dailyValue c4cexCats
      (mergedData c4cexCats c4cexProds (fetchRows c4cexPrices 0 0) 0)
      (fetchRows c4cexPrices 0 0) 0)] = _
    rw [hdv, round4_eq_self_of_mul ((6:ℝ)/10) 6000 (by norm_num)]

/-- C4 witness data. -/
def w4cats : List Category := [⟨1, -1, 1⟩]

/-- C4 witness products. -/
def w4prods : List Product := [⟨1, 1⟩]

/-- C4 witness prices. -/
def w4prices : List PriceRow := [⟨1, 10, 0⟩]

theorem first_value_one_with_category_coverage_witness :
    ((allDates 0 0).map (fun T => round4 (dailyValue w4cats
      (mergedData w4cats w4prods (fetchRows w4prices 0 0) 0)
      (fetchRows w4prices 0 0) T))).head? = some 1 := by
  have hw : ((leafCategories w4cats).map (fun c => c.weight)).sum = 1 := by
    rw [show leafCategories w4cats = w4cats from rfl]
    show (1:ℚ) + 0 = 1
    norm_num
  have hcov : ∀ l ∈ leafCategories w4cats, ∃ p ∈ w4prods,
      p.category_id = l.category_id ∧
        ∃ b, pivotRaw (fetchRows w4prices 0 0) p.product_id 0 = some b ∧ 0 < b := by
    intro l hl
    have hl2 : l ∈ w4cats := by
      rw [show leafCategories w4cats = w4cats from rfl] at hl
      exact hl
    have hle : l = ⟨1, -1, 1⟩ := List.mem_singleton.mp hl2
    subst hle
    exact ⟨⟨1, 1⟩, by decide, rfl, 10, by decide, by decide⟩
  have hout := computeDailyCPI_eq_some_map w4cats w4prods w4prices 0 0
    (by decide) (fun d hd => by fin_cases hd <;> decide)
  exact first_value_one_with_category_coverage w4cats w4prods w4prices 0 0 _
    (le_refl 0) hw hcov hout

/-- C6 witness data. -/
def w6cats : List Category := [⟨1, -1, 1⟩]

/-- C6 witness products. -/
def w6prods : List Product := [⟨1, 1⟩]

/-- C6 witness prices. -/
def w6prices : List PriceRow := [⟨1, 10, 0⟩]

theorem daily_series_is_leaf_weighted_sum_witness :
    ((allDates 0 0).map (fun T => round4 (dailyValue w6cats
      (mergedData w6cats w6prods (fetchRows w6prices 0 0) 0)
      (fetchRows w6prices 0 0) T))) =
      ((allDates 0 0).map (fun T => round4 (specDailyValue w6cats
        (mergedData w6cats w6prods (fetchRows w6prices 0 0) 0)
        (fetchRows w6prices 0 0) T))) :=
  daily_series_is_leaf_weighted_sum w6cats w6prods w6prices
    (computeDailyCPI_eq_some_map w6cats w6prods w6prices 0 0
      (by decide) (fun d hd => by fin_cases hd <;> decide))

/-- C10 witness data: day 1 inside [0, 2] has no price row at all. -/
def w10cats : List Category := [⟨1, -1, 1⟩]

/-- C10 witness products. -/
def w10prods : List Product := [⟨1, 1⟩]

/-- C10 witness prices. -/
def w10prices : List PriceRow := [⟨1, 10, 0⟩, ⟨1, 11, 2⟩]

theorem compute_daily_raises_on_gap_date_witness :
    computeDailyCPI w10cats w10prods w10prices 0 2 = none :=
  compute_daily_raises_on_gap_date w10cats w10prods w10prices 0 2 1
    (by decide) (by decide) (by decide)
